import Mathlib

/-!
Shallow embedding of the `codebase2xml` package (src/codebase2xml/core.py)
and proofs about the claims of its specification.

Conventions of the embedding:
* Python strings are Lean `String`s; operations that the Lean core library
  implements with opaque position arithmetic (`toLower`, `startsWith`, ...)
  are re-implemented over `List Char` so that every definition reduces in
  the kernel.
* The filesystem is a mutual inductive tree (`FSNode`/`FSEntries`).
  A file node carries the result of `stat` as an `Option Stat`
  (`none` models `Path.stat()` raising an `OSError`/`PermissionError`
  persistently) and the result of opening and reading it as an
  `Option String` (`none` models `open`/`read` raising).  The tree is
  static for the whole run, matching the spec's static-filesystem
  assumption.  `Path.is_file()`/`Path.is_dir()` swallow the `OSError`
  of a failing `stat` and report `false` (the behaviour of the
  supported CPython 3.13; on older interpreters only some errnos are
  swallowed, which never makes the modelled claims truer).
* `xml.etree.ElementTree` elements are modelled by `Element`:
  tag, attributes in insertion order, optional text, children in
  insertion order.
-/

namespace Codebase2Xml

/-! ### Character/string helpers (kernel-reducible) -/

/-- ASCII lower-casing of one character; models Python `str.lower` on the
ASCII names used by the detector tables (full Unicode case mapping is out
of scope of the embedding). -/
def asciiLowerChar (c : Char) : Char :=
  if 65 ≤ c.toNat && c.toNat ≤ 90 then Char.ofNat (c.toNat + 32) else c

/-- Models `str.lower` (ASCII fragment). -/
def lowerStr (s : String) : String := String.mk (s.data.map asciiLowerChar)

/-- Is `p` a prefix of `s` (as character lists)? -/
def isPrefixB : List Char → List Char → Bool
  | [], _ => true
  | _ :: _, [] => false
  | a :: as, b :: bs => a == b && isPrefixB as bs

/-- Python `needle in hay` for strings: substring containment. -/
def substrListB : List Char → List Char → Bool
  | n, [] => n.isEmpty
  | n, c :: rest => isPrefixB n (c :: rest) || substrListB n rest

/-- Python `needle in hay` for `String`s. -/
def substrB (needle hay : String) : Bool := substrListB needle.data hay.data

/-- Models `s.startswith(pre)`. -/
def startsWithB (pre s : String) : Bool := isPrefixB pre.data s.data

/-- Does the string contain the character? -/
def containsCharB (s : String) (c : Char) : Bool := s.data.any (· == c)

/-- Code-point lexicographic `≤` on character lists; models Python string
comparison (`str.__le__`), which compares by code point. -/
def strLeB : List Char → List Char → Bool
  | [], _ => true
  | _ :: _, [] => false
  | a :: as, b :: bs =>
    if a.toNat < b.toNat then true
    else if b.toNat < a.toNat then false
    else strLeB as bs

/-- Models `pathlib.PurePath.suffix`: the final `.`-extension of a name, empty when
the name has no dot, the only dot is leading (hidden files), or the dot is
the last character. -/
def pathSuffix (name : String) : String :=
  let cs := name.data
  let n := cs.length
  match (cs.foldl (fun (st : Nat × Option Nat) c =>
      (st.1 + 1, if c == '.' then some st.1 else st.2)) ((0 : Nat), none)).2 with
  | some i => if 0 < i && i < n - 1 then String.mk (cs.drop i) else ""
  | none => ""

/-- The characters Python `str.strip()` removes / `str.isspace` accepts
(ASCII whitespace plus the Unicode space separators). -/
def pyIsSpace (c : Char) : Bool :=
  c.toNat == 0x20 || (0x9 ≤ c.toNat && c.toNat ≤ 0xD) ||
  c.toNat == 0x1C || c.toNat == 0x1D || c.toNat == 0x1E || c.toNat == 0x1F ||
  c.toNat == 0x85 || c.toNat == 0xA0 || c.toNat == 0x1680 ||
  (0x2000 ≤ c.toNat && c.toNat ≤ 0x200A) ||
  c.toNat == 0x2028 || c.toNat == 0x2029 || c.toNat == 0x202F ||
  c.toNat == 0x205F || c.toNat == 0x3000

/-- Truthiness of `content.strip()`: the string holds a non-whitespace
character. -/
def stripTruthy (s : String) : Bool := s.data.any (fun c => !pyIsSpace c)

/-- Line-break characters recognised by Python `str.splitlines`. -/
def isPyLineBreak (c : Char) : Bool :=
  c.toNat == 0xA || c.toNat == 0xB || c.toNat == 0xC || c.toNat == 0xD ||
  c.toNat == 0x1C || c.toNat == 0x1D || c.toNat == 0x1E ||
  c.toNat == 0x85 || c.toNat == 0x2028 || c.toNat == 0x2029

/-- Models `len(content.splitlines())`: each line break terminates one segment
(`\r\n` counting as a single break), a trailing unterminated segment
counts once.  The Boolean records whether we are inside a segment. -/
def pyCountLinesAux : Bool → List Char → Nat
  | started, [] => if started then 1 else 0
  | _, '\r' :: '\n' :: rest => 1 + pyCountLinesAux false rest
  | _, c :: rest =>
    if isPyLineBreak c then 1 + pyCountLinesAux false rest
    else pyCountLinesAux true rest

/-- Models `CodebaseArchiver._count_lines`: `len(content.splitlines()) if content
else 0`. -/
def count_lines (content : String) : Nat := pyCountLinesAux false content.data

/-! ### Content sanitizer (`CodebaseArchiver._clean_xml_content`) -/

/-- The XML-1.0-legal code points, exactly the ranges tested by the source:
`#x9 | #xA | #xD | [#x20-#xD7FF] | [#xE000-#xFFFD] | [#x10000-#x10FFFF]`. -/
def validXmlCp (code : Nat) : Bool :=
  code == 0x09 || code == 0x0A || code == 0x0D ||
  (0x20 ≤ code && code ≤ 0xD7FF) ||
  (0xE000 ≤ code && code ≤ 0xFFFD) ||
  (0x10000 ≤ code && code ≤ 0x10FFFF)

/-- The per-code-point body of the sanitizer loop: a legal code point is
kept, everything else becomes U+FFFD. -/
def clean_xml_cp (code : Nat) : Nat := if validXmlCp code then code else 0xFFFD

/-- Models `_clean_xml_content` at the code-point level.  A Python `str` is a
sequence of code points (it may hold lone surrogates, which Lean `Char`
cannot), so the sanitizer — whose loop is `for char in content:
code = ord(char)` — is embedded over `List Nat`.  The `if not content:
return content` guard returns the empty list unchanged, which the map
also does. -/
def clean_xml_content (content : List Nat) : List Nat := content.map clean_xml_cp

/-- Models `_clean_xml_content` restricted to Lean `Char` strings, used by the
archive pipeline. -/
def clean_xml_contentStr (content : String) : String :=
  String.mk (content.data.map (fun c => if validXmlCp c.toNat then c else '�'))

/-! ### Type classifier (`FileTypeDetector`) -/

def PROGRAMMING_EXTENSIONS : List (String × String) :=
  [(".py", "python"), (".js", "javascript"), (".ts", "typescript"), (".java", "java"),
   (".cpp", "cpp"), (".c", "c"), (".h", "header"), (".hpp", "header"),
   (".cs", "csharp"), (".php", "php"), (".rb", "ruby"), (".go", "go"),
   (".rs", "rust"), (".swift", "swift"), (".kt", "kotlin"), (".scala", "scala"),
   (".r", "r"), (".m", "matlab"), (".sh", "shell"), (".bash", "shell"),
   (".zsh", "shell"), (".fish", "shell"), (".ps1", "powershell"),
   (".sql", "sql"), (".pl", "perl"), (".lua", "lua"), (".dart", "dart"),
   (".elm", "elm"), (".ex", "elixir"), (".exs", "elixir"), (".clj", "clojure"),
   (".hs", "haskell"), (".ml", "ocaml"), (".fs", "fsharp"), (".vb", "vbasic")]

def CONFIG_EXTENSIONS : List (String × String) :=
  [(".json", "json"), (".yaml", "yaml"), (".yml", "yaml"), (".toml", "toml"),
   (".ini", "ini"), (".cfg", "config"), (".conf", "config"), (".properties", "properties"),
   (".env", "environment"), (".dockerignore", "docker"), (".gitignore", "git"),
   (".gitattributes", "git"), (".editorconfig", "editor")]

def DOCUMENTATION_EXTENSIONS : List (String × String) :=
  [(".md", "markdown"), (".rst", "restructuredtext"), (".txt", "text"),
   (".doc", "word"), (".docx", "word"), (".pdf", "pdf"), (".rtf", "rtf"),
   (".tex", "latex"), (".org", "org-mode"), (".wiki", "wiki")]

def WEB_EXTENSIONS : List (String × String) :=
  [(".html", "html"), (".htm", "html"), (".xml", "xml"), (".xhtml", "xhtml"),
   (".css", "css"), (".scss", "scss"), (".sass", "sass"), (".less", "less"),
   (".vue", "vue"), (".jsx", "jsx"), (".tsx", "tsx"), (".svelte", "svelte")]

def DATA_EXTENSIONS : List (String × String) :=
  [(".csv", "csv"), (".tsv", "tsv"), (".xlsx", "excel"), (".xls", "excel"),
   (".ods", "spreadsheet"), (".sqlite", "sqlite"), (".db", "database"),
   (".parquet", "parquet"), (".arrow", "arrow"), (".avro", "avro")]

def MEDIA_EXTENSIONS : List (String × String) :=
  [(".png", "image"), (".jpg", "image"), (".jpeg", "image"), (".gif", "image"),
   (".svg", "vector"), (".ico", "icon"), (".bmp", "image"), (".tiff", "image"),
   (".mp4", "video"), (".avi", "video"), (".mov", "video"), (".wmv", "video"),
   (".mp3", "audio"), (".wav", "audio"), (".flac", "audio"), (".ogg", "audio")]

def SPECIAL_FILES : List (String × String) :=
  [("README", "documentation"), ("LICENSE", "license"), ("CHANGELOG", "documentation"),
   ("CONTRIBUTING", "documentation"), ("INSTALL", "documentation"), ("MANIFEST", "manifest"),
   ("Makefile", "build"), ("makefile", "build"), ("CMakeLists.txt", "build"),
   ("Dockerfile", "docker"), ("docker-compose.yml", "docker"), ("docker-compose.yaml", "docker"),
   ("requirements.txt", "dependencies"), ("package.json", "dependencies"),
   ("setup.py", "setup"), ("setup.cfg", "setup"), ("pyproject.toml", "setup"),
   ("Cargo.toml", "dependencies"), ("pom.xml", "dependencies"), ("build.gradle", "build"),
   ("package-lock.json", "lockfile"), ("yarn.lock", "lockfile"), ("Pipfile.lock", "lockfile")]

/-- Finite model of the standard-library `mimetypes` table, keyed by the
lower-cased extension: a representative subset of CPython's
`mimetypes.types_map` restricted to extensions that are not already
covered by the detector's own tables.  An extension absent from this
table models `mimetypes.guess_type` returning `None` (true of the
made-up extensions used in the concrete theorems below).  Compressed
double extensions (`.tar.gz` encodings) are not modelled. -/
def mime_types_map : List (String × String) :=
  [(".bin", "application/octet-stream"), (".exe", "application/x-msdownload"),
   (".mid", "audio/midi"), (".midi", "audio/midi"),
   (".webm", "video/webm"), (".mpeg", "video/mpeg"),
   (".ics", "text/calendar"), (".csh", "application/x-csh"),
   (".webp", "image/webp"), (".tar", "application/x-tar"),
   (".zip", "application/zip"), (".pdf2", "application/unused-placeholder")]

/-- Models `mimetypes.guess_type(str(file_path))[0]`, modelled by looking the
lower-cased suffix up in `mime_types_map`. -/
def mime_guess (suffixLower : String) : Option String :=
  mime_types_map.lookup suffixLower

/-- The `mime_type.startswith(...)` cascade of `detect_type`; `none` when
the guessed type matches no prefix, in which case the source falls
through to the default fallback. -/
def mime_category (m : String) : Option String :=
  if startsWithB "text/" m then some "text"
  else if startsWithB "image/" m then some "image"
  else if startsWithB "audio/" m then some "audio"
  else if startsWithB "video/" m then some "video"
  else if startsWithB "application/" m then some "binary"
  else none

/-- Models `FileTypeDetector.detect_type`: special-file table, then the six
extension tables in source order on the lower-cased suffix, then the
MIME guess, then `unknown` + lower-cased suffix / `unknown`. -/
def detect_type (filename : String) : String :=
  let suffix := lowerStr (pathSuffix filename)
  match SPECIAL_FILES.lookup filename with
  | some t => t
  | none =>
  match PROGRAMMING_EXTENSIONS.lookup suffix with
  | some t => t
  | none =>
  match CONFIG_EXTENSIONS.lookup suffix with
  | some t => t
  | none =>
  match DOCUMENTATION_EXTENSIONS.lookup suffix with
  | some t => t
  | none =>
  match WEB_EXTENSIONS.lookup suffix with
  | some t => t
  | none =>
  match DATA_EXTENSIONS.lookup suffix with
  | some t => t
  | none =>
  match MEDIA_EXTENSIONS.lookup suffix with
  | some t => t
  | none =>
  match (mime_guess suffix).bind mime_category with
  | some t => t
  | none => if suffix != "" then "unknown" ++ suffix else "unknown"

/-! ### Ignore filter (`_should_ignore` / `_match_pattern`) -/

/-- All suffixes of a list, longest first (the list itself down to `[]`). -/
def listSuffixes : List Char → List (List Char)
  | [] => [[]]
  | c :: rest => (c :: rest) :: listSuffixes rest

/-- Direct semantics of the anchored regular expression that
`_match_pattern` builds by
`pattern.replace('*', '.*').replace('?', '.')` and runs with
`re.match('^...$', name)`: an original `*` matches any run of characters
(below: the rest of the pattern matches some suffix), and — because the
translation maps `?` to `.` and leaves `.` unescaped — both `?` and `.`
match any single character; every other character of the pattern matches
itself.  This is exactly `re.match` on the translated pattern for
patterns free of further regex metacharacters (true of the default
pattern set and of every pattern considered in the theorems below). -/
def match_glob_regex : List Char → List Char → Bool
  | [], s => s.isEmpty
  | c :: ps, s =>
    if c == '*' then (listSuffixes s).any (fun t => match_glob_regex ps t)
    else if c == '?' || c == '.' then
      match s with
      | [] => false
      | _ :: s' => match_glob_regex ps s'
    else
      match s with
      | [] => false
      | b :: s' => c == b && match_glob_regex ps s'

/-- Models `CodebaseArchiver._match_pattern(name, pattern)`: only patterns that
contain `*` are glob-compiled; every other pattern (including those with
`?`) is compared for literal equality. -/
def match_pattern (name pattern : String) : Bool :=
  if containsCharB pattern '*' then match_glob_regex pattern.data name.data
  else name == pattern

/-- Models `CodebaseArchiver._should_ignore`: a path is ignored when some
configured pattern occurs as a substring of the full path string or
`_match_pattern` accepts the final segment. -/
def should_ignore (patterns : List String) (pathStr name : String) : Bool :=
  patterns.any (fun pattern => substrB pattern pathStr || match_pattern name pattern)

/-- Modelled from the spec's words (for the refinement claim about the
ignore filter): an anchored glob over the whole pattern where `*`
matches any run of characters, `?` matches any single character, and
every other character — including `.` — matches itself. -/
def spec_glob_match : List Char → List Char → Bool
  | [], s => s.isEmpty
  | c :: ps, s =>
    if c == '*' then (listSuffixes s).any (fun t => spec_glob_match ps t)
    else if c == '?' then
      match s with
      | [] => false
      | _ :: s' => spec_glob_match ps s'
    else
      match s with
      | [] => false
      | b :: s' => c == b && spec_glob_match ps s'

/-! ### Archiver configuration (`CodebaseArchiver.__init__`) -/

/-- The built-in default ignore patterns. -/
def default_ignore_patterns : List String :=
  ["*.pyc", "__pycache__", ".git", ".svn", ".hg",
   "node_modules", ".DS_Store", "*.log", "*.tmp",
   ".venv", "venv", ".env", ".idea", ".vscode"]

/-- The archiver's per-run configuration. -/
structure Config where
  ignore_patterns : List String
  max_file_size : Nat
  include_binary : Bool
deriving Repr, DecidableEq

/-- Models `CodebaseArchiver.__init__`: `self.ignore_patterns = ignore_patterns or
[...]` — both `None` and the empty list are falsy and select the default
set. -/
def mkArchiver (ignore_patterns : Option (List String)) (max_file_size : Nat)
    (include_binary : Bool) : Config :=
  { ignore_patterns :=
      match ignore_patterns with
      | none => default_ignore_patterns
      | some ps => if ps.isEmpty then default_ignore_patterns else ps
    max_file_size := max_file_size
    include_binary := include_binary }

/-- The default configuration (`CodebaseArchiver()`). -/
def defaultConfig : Config := mkArchiver none (10 * 1024 * 1024) false

/-- The binary-tag set of `_is_text_file`. -/
def binary_types : List String :=
  ["image", "audio", "video", "binary", "excel", "sqlite", "database"]

/-- Models `CodebaseArchiver._is_text_file`: unless binary inclusion is enabled,
a classification tag that contains any member of `binary_types` as a
substring (the source tests `bt in file_type`, i.e. substring
containment) is rejected; otherwise the verdict is whether opening the
file and reading its first 1KB succeeds (`content = some _`; with
`errors='ignore'` the decode itself never raises, so only
`PermissionError`/`OSError` can make the read fail). -/
def is_text_file (include_binary : Bool) (name : String) (content : Option String) : Bool :=
  if !include_binary && binary_types.any (fun bt => substrB bt (detect_type name)) then
    false
  else content.isSome

/-! ### The filesystem model -/

/-- The result of a successful `Path.stat()`, with the derived values the
archiver extracts (`_get_file_stats`): byte size, the two ISO-formatted
timestamps and the 3-digit octal permission string are carried as
already-rendered strings, since the archiver only ever forwards them
into attributes. -/
structure Stat where
  size : Nat
  modified : String
  created : String
  permissions : String
deriving Repr, DecidableEq

mutual
/-- A node of the (static) filesystem.  A `file` carries the outcome of
`stat` (`none` = raises `OSError`/`PermissionError`) and of
`open`+`read` (`none` = raises).  A `dir` carries whether `iterdir`
and `scandir` succeed (`false` = raise `PermissionError`) and its
entries in directory order; directories themselves always stat
successfully in this model (the claims never need a stat-failing
directory). -/
inductive FSNode where
  | file : Option Stat → Option String → FSNode
  | dir : Bool → FSEntries → FSNode
/-- The named entries of a directory, in directory order. -/
inductive FSEntries where
  | nil : FSEntries
  | cons : String → FSNode → FSEntries → FSEntries
end

/-- Models `Path.is_file()`: true for a file whose `stat` succeeds; the
`OSError` of a failing `stat` is swallowed and reported as `False`. -/
def isFileB : FSNode → Bool
  | .file (some _) _ => true
  | _ => false

/-- Models `Path.is_dir()`: true for a directory (all modelled directories stat
successfully); for a file whose stat fails the swallowed error again
gives `False`. -/
def isDirB : FSNode → Bool
  | .dir _ _ => true
  | _ => false

mutual
/-- Models `codebase_path.rglob('*')`: enumerates, for each listable directory
(the root first, then each subdirectory depth-first), all entries of
that directory in directory order; an unlistable directory's
`PermissionError` is swallowed, so nothing below it is yielded.
Each result is (full path string, final segment, node). -/
def rglobNode (dirPath : String) : FSNode → List (String × String × FSNode)
  | .file _ _ => []
  | .dir listable es =>
    if listable then rglobLevel dirPath es ++ rglobDeeper dirPath es else []
/-- The immediate entries of one directory, as rglob yields them. -/
def rglobLevel (dirPath : String) : FSEntries → List (String × String × FSNode)
  | .nil => []
  | .cons n c rest => (dirPath ++ "/" ++ n, n, c) :: rglobLevel dirPath rest
/-- The recursive descent of rglob into each sub-entry. -/
def rglobDeeper (dirPath : String) : FSEntries → List (String × String × FSNode)
  | .nil => []
  | .cons n c rest => rglobNode (dirPath ++ "/" ++ n) c ++ rglobDeeper dirPath rest
end

/-! ### XML element model -/

/-- An `xml.etree.ElementTree.Element`: tag, attributes in insertion
order, optional text, children in insertion order. -/
inductive Element where
  | mk : String → List (String × String) → Option String → List Element → Element

def Element.tag : Element → String
  | .mk t _ _ _ => t

def Element.attrs : Element → List (String × String)
  | .mk _ a _ _ => a

def Element.textOf : Element → Option String
  | .mk _ _ tx _ => tx

def Element.children : Element → List Element
  | .mk _ _ _ cs => cs

/-- Attribute lookup (`elem.get(key)`). -/
def Element.attr (e : Element) (k : String) : Option String := e.attrs.lookup k

/-! ### Metadata extractor (`CodebaseArchiver._extract_metadata`) -/

/-- The counting part of the metadata record (`name`, `path` and
`timestamp` are taken verbatim from the arguments of the archive call
and are attached at assembly time). -/
structure Metadata where
  total_files : Nat
  total_directories : Nat
  total_size : Nat
  file_types : List (String × Nat)
  languages : List String
deriving Repr, DecidableEq

/-- Models `metadata['file_types'][t] = .get(t, 0) + 1` on an insertion-ordered
dict. -/
def bumpCount (k : String) : List (String × Nat) → List (String × Nat)
  | [] => [(k, 1)]
  | (k', n) :: rest => if k' == k then (k', n + 1) :: rest else (k', n) :: bumpCount k rest

/-- Models `if file_type in PROGRAMMING_EXTENSIONS.values():
languages.add(file_type)` — the set modelled as a duplicate-free list in
insertion order (it is sorted before being exposed). -/
def addLang (tag : String) (langs : List String) : List String :=
  if PROGRAMMING_EXTENSIONS.any (fun kv => kv.2 == tag) then
    if langs.contains tag then langs else langs ++ [tag]
  else langs

/-- One iteration of the `for item in codebase_path.rglob('*')` loop of
`_extract_metadata`.  A non-ignored entry whose `is_file()` holds is
counted and (its stat necessarily succeeding in a static tree) adds its
size and histogram contribution; a file whose stat fails satisfies
neither `is_file()` nor `is_dir()` and is skipped entirely; a directory
bumps the directory counter. -/
def metadataStep (pats : List String) (m : Metadata) :
    String × String × FSNode → Metadata :=
  fun e =>
    if should_ignore pats e.1 e.2.1 then m
    else
      match e.2.2 with
      | .file (some st) _ =>
        { m with total_files := m.total_files + 1
                 total_size := m.total_size + st.size
                 file_types := bumpCount (detect_type e.2.1) m.file_types
                 languages := addLang (detect_type e.2.1) m.languages }
      | .file none _ => m
      | .dir _ _ => { m with total_directories := m.total_directories + 1 }

/-- Models `_extract_metadata` (counting part). -/
def extract_metadata (pats : List String) (rootPath : String) (root : FSNode) : Metadata :=
  (rglobNode rootPath root).foldl (metadataStep pats) ⟨0, 0, 0, [], []⟩

/-! ### Structure builder (`CodebaseArchiver._build_structure_tree`) -/

/-- The sort key of `sorted(current_path.iterdir(), key=lambda x:
(x.is_file(), x.name.lower()))` on one directory entry. -/
def entryKey (name : String) (node : FSNode) : Bool × String := (isFileB node, lowerStr name)

/-- Python tuple `≤` on such keys: `False` sorts before `True`,
equal Booleans fall through to code-point string comparison. -/
def keyLeB : Bool × String → Bool × String → Bool
  | (a, s), (b, t) => if a == b then strLeB s.data t.data else a == false

/-- The sort relation on (name, node, built element) triples used below;
it only inspects name and node, exactly like the source's key. -/
def triR (x y : String × FSNode × Element) : Prop :=
  keyLeB (entryKey x.1 x.2.1) (entryKey y.1 y.2.1) = true

instance : DecidableRel triR := fun x y =>
  inferInstanceAs (Decidable (keyLeB (entryKey x.1 x.2.1) (entryKey y.1 y.2.1) = true))

mutual
/-- Models `_build_structure_tree`.  A file whose stat succeeds renders as a
`file` element (name and type only).  A file whose stat fails takes the
directory branch — `is_file()` is False — where `iterdir()` raises
`NotADirectoryError` (an `OSError`), caught to an empty child list, so
it renders as a childless `directory` element.  For a directory, the
source sorts `iterdir()` by `(is_file(), name.lower())`, then builds
each non-ignored child in that order; since building a child is a pure
function of the entry, the embedding first builds every child
(`buildEntries`, preserving directory order) and then sorts and filters
the (name, node, element) triples by the same key, which produces the
same children list while keeping the recursion structural.  An
unlistable directory's `PermissionError` is caught to an empty child
list. -/
def build_structure_tree (pats : List String) (pathStr name : String) : FSNode → Element
  | .file (some _) _ =>
    Element.mk "file" [("name", name), ("type", detect_type name)] none []
  | .file none _ =>
    Element.mk "directory" [("name", name), ("path", pathStr)] none []
  | .dir listable es =>
    let kids :=
      if listable then
        (((buildEntries pats pathStr es).insertionSort triR).filter
            (fun x => !should_ignore pats (pathStr ++ "/" ++ x.1) x.1)).map
          (fun x => x.2.2)
      else []
    Element.mk "directory" [("name", name), ("path", pathStr)] none kids
/-- Builds every entry of a directory, keeping name and node alongside
the built element for the subsequent sort and ignore filter. -/
def buildEntries (pats : List String) (dirPath : String) :
    FSEntries → List (String × FSNode × Element)
  | .nil => []
  | .cons n c rest =>
    (n, c, build_structure_tree pats (dirPath ++ "/" ++ n) n c) ::
      buildEntries pats dirPath rest
end

/-! ### Files pass and document assembly (`CodebaseArchiver.archive_codebase`) -/

/-- One `file` element of the files section, for a non-ignored file whose
`is_file()` held (so its stat `st` succeeded).  Attributes are set in
source order: name, path, type, then the `_get_file_stats` dict (size,
modified, created, permissions), then — only when sanitized content is
attached — `lines`.  Content is attached when the size is within
`max_file_size`, `_is_text_file` accepts, and the text is non-empty
after `strip()`; an eligible but whitespace-only file gets neither
content nor note; an ineligible file gets the "too large" or
"Binary file - content skipped" note.  The inner
`except` that would attach "Content could not be read" is kept for
fidelity but is unreachable in a static tree: `_is_text_file` has
already read the file successfully. -/
def file_entry (cfg : Config) (pathStr name : String) (st : Stat)
    (content : Option String) : Element :=
  let baseAttrs := [("name", name), ("path", pathStr), ("type", detect_type name),
                    ("size", toString st.size), ("modified", st.modified),
                    ("created", st.created), ("permissions", st.permissions)]
  if st.size ≤ cfg.max_file_size && is_text_file cfg.include_binary name content then
    match content with
    | some s =>
      if stripTruthy s then
        Element.mk "file" (baseAttrs ++ [("lines", toString (count_lines s))]) none
          [Element.mk "content" [] (some (clean_xml_contentStr s)) []]
      else
        Element.mk "file" baseAttrs none []
    | none =>
      Element.mk "file" baseAttrs none
        [Element.mk "note" [] (some "Content could not be read") []]
  else
    Element.mk "file" baseAttrs none
      [Element.mk "note" [] (some
        (if cfg.max_file_size < st.size then
          "File too large (" ++ toString st.size ++ " bytes)"
        else "Binary file - content skipped")) []]

/-- One iteration of the `for file_path in codebase_path.rglob('*')` loop
of the files section: an entry contributes a `file` element exactly when
`is_file()` holds (the node is a file whose stat succeeds) and it is not
ignored. -/
def files_entry_fun (cfg : Config) : String × String × FSNode → Option Element :=
  fun e =>
    match e with
    | (pathStr, name, FSNode.file (some st) content) =>
      if should_ignore cfg.ignore_patterns pathStr name then none
      else some (file_entry cfg pathStr name st content)
    | _ => none

/-- The files section: every non-ignored entry with `is_file()` true
contributes one `file` element.  The outer `except (OSError,
PermissionError)` that appends a degraded element with type
`inaccessible` cannot fire in a static tree — every operation in the
loop body re-queries the same already-successful stat,
`_get_file_stats` catches its own errors, and read errors are
pre-empted by `_is_text_file` or caught by the inner `except` — so it
has no counterpart here. -/
def files_pass (cfg : Config) (rootPath : String) (root : FSNode) : List Element :=
  (rglobNode rootPath root).filterMap (files_entry_fun cfg)

/-- Python tuple comparison on the `(tag, count)` items of the file-type
histogram (`sorted(metadata['file_types'].items())`). -/
def pairLe (a b : String × Nat) : Prop :=
  (if a.1 == b.1 then Nat.ble a.2 b.2 else strLeB a.1.data b.1.data) = true

instance : DecidableRel pairLe := fun a b =>
  inferInstanceAs
    (Decidable ((if a.1 == b.1 then Nat.ble a.2 b.2 else strLeB a.1.data b.1.data) = true))

/-- Code-point `≤` on strings (`sorted(metadata['languages'])`). -/
def strLeRel (a b : String) : Prop := strLeB a.data b.data = true

instance : DecidableRel strLeRel := fun a b =>
  inferInstanceAs (Decidable (strLeB a.data b.data = true))

/-- Models `archive_codebase`, up to the point where the element tree is
serialized: the produced document root.  `rootName` is
`codebase_path.name`, `rootPath` is `str(codebase_path)` (also standing
in for the absolute path), `now` is the formatted
`datetime.now().isoformat()`.  The existence/directory preconditions
are represented by the argument being an `FSNode.dir`; file writing and
pretty-printing are outside the modelled scope. -/
def archive_document (cfg : Config) (rootName rootPath now : String)
    (root : FSNode) : Element :=
  let md := extract_metadata cfg.ignore_patterns rootPath root
  let descElem := Element.mk "description" []
      (some ("Archived codebase: " ++ rootName)) []
  let pathElem := Element.mk "source_path" [] (some rootPath) []
  let statsElem := Element.mk "statistics"
      [("total_files", toString md.total_files),
       ("total_directories", toString md.total_directories),
       ("total_size", toString md.total_size)] none []
  let typesElems :=
    if md.file_types.isEmpty then []
    else [Element.mk "file_types" [] none
      ((md.file_types.insertionSort pairLe).map (fun kv =>
        Element.mk "type" [("name", kv.1), ("count", toString kv.2)] none []))]
  let langElems :=
    if md.languages.isEmpty then []
    else [Element.mk "languages" [] none
      ((md.languages.insertionSort strLeRel).map (fun l =>
        Element.mk "language" [] (some l) []))]
  let metaElem := Element.mk "metadata" [] none
      ([descElem, pathElem, statsElem] ++ typesElems ++ langElems)
  let structElem := Element.mk "structure" [] none
      [build_structure_tree cfg.ignore_patterns rootPath "/" root]
  let filesElem := Element.mk "files" [] none (files_pass cfg rootPath root)
  Element.mk "codebase"
    [("name", rootName), ("version", "1.0"), ("timestamp", now)] none
    [metaElem, structElem, filesElem]

/-! ### Derived notions used by the statements -/

/-- The sort key of a rendered structure-tree child, read off the element:
whether it rendered as a `file` element, and the lower-cased `name`
attribute. -/
def elemKey (e : Element) : Bool × String :=
  (e.tag == "file", lowerStr ((e.attr "name").getD ""))

/-- The keys of an element's children, in order. -/
def childKeys (e : Element) : List (Bool × String) := e.children.map elemKey

/-- Every directory node of an element tree has its children sorted by
`keyLeB` on `(is-file, lowercase name)` — the deep version of the
structure-tree ordering property. -/
inductive DeepSorted : Element → Prop where
  | node (e : Element)
      (hsorted : List.Pairwise (fun k1 k2 => keyLeB k1 k2 = true) (childKeys e))
      (hchildren : ∀ c ∈ e.children, DeepSorted c) : DeepSorted e

/-- All classification tags a lookup table can produce, plus the five
MIME-derived categories.  Every `detect_type` result is either in this
list or of the form `unknown` + suffix. -/
def allTableTags : List String :=
  SPECIAL_FILES.map Prod.snd ++ PROGRAMMING_EXTENSIONS.map Prod.snd ++
  CONFIG_EXTENSIONS.map Prod.snd ++ DOCUMENTATION_EXTENSIONS.map Prod.snd ++
  WEB_EXTENSIONS.map Prod.snd ++ DATA_EXTENSIONS.map Prod.snd ++
  MEDIA_EXTENSIONS.map Prod.snd ++
  ["text", "image", "audio", "video", "binary"]

/-! ### Concrete filesystems used by the closed theorems -/

/-- The round-trip scenario: a directory holding exactly `main.py` with
content `print(1)` and `README.md` with content `hi`, both fully
accessible. -/
def c1_fs : FSNode :=
  .dir true (.cons "main.py" (.file (some ⟨8, "2024-01-01T00:00:00", "2024-01-01T00:00:00", "644"⟩)
      (some "print(1)"))
    (.cons "README.md" (.file (some ⟨2, "2024-01-01T00:00:00", "2024-01-01T00:00:00", "644"⟩)
      (some "hi")) .nil))

/-- The document produced for the round-trip scenario with the default
configuration. -/
def c1_doc : Element :=
  archive_document defaultConfig "project" "project" "2024-06-01T12:00:00" c1_fs

/-- A directory holding one stat-able Python file whose open/read raises
`PermissionError` (`content = none`). -/
def c5_fs : FSNode :=
  .dir true (.cons "a.py" (.file (some ⟨5, "m", "c", "000"⟩) none) .nil)

/-- A directory holding one file whose `stat` raises persistently. -/
def c7_fs : FSNode :=
  .dir true (.cons "f.txt" (.file none none) .nil)

/-- The sibling-ordering scenario of the spec: `b.txt`, a directory `A`,
and `a.txt`. -/
def c8_fs : FSNode :=
  .dir true (.cons "b.txt" (.file (some ⟨1, "m", "c", "644"⟩) (some "b"))
    (.cons "A" (.dir true .nil)
      (.cons "a.txt" (.file (some ⟨1, "m", "c", "644"⟩) (some "a")) .nil)))

/-- A directory holding one whitespace-only Python file. -/
def c9_fs : FSNode :=
  .dir true (.cons "ws.py" (.file (some ⟨3, "m", "c", "644"⟩) (some " \n ")) .nil)

/-! ## Theorems -/

/-! ### Order lemmas for the structure-tree sort key -/

theorem strLeB_total (a : List Char) : ∀ b, strLeB a b = true ∨ strLeB b a = true := by
  induction a with
  | nil => intro b; exact Or.inl rfl
  | cons x xs ih =>
    intro b
    cases b with
    | nil => exact Or.inr rfl
    | cons y ys =>
      simp only [strLeB]
      rcases Nat.lt_trichotomy x.toNat y.toNat with h | h | h
      · left; simp [h]
      · have h1 : ¬ x.toNat < y.toNat := by omega
        have h2 : ¬ y.toNat < x.toNat := by omega
        simpa [h1, h2] using ih ys
      · right; simp [h]

theorem strLeB_trans (a : List Char) :
    ∀ b c, strLeB a b = true → strLeB b c = true → strLeB a c = true := by
  induction a with
  | nil => intro b c _ _; rfl
  | cons x xs ih =>
    intro b c hab hbc
    cases b with
    | nil => simp [strLeB] at hab
    | cons y ys =>
      cases c with
      | nil => simp [strLeB] at hbc
      | cons z zs =>
        simp only [strLeB] at hab hbc ⊢
        by_cases h1 : x.toNat < y.toNat
        · by_cases h2 : y.toNat < z.toNat
          · have h3 : x.toNat < z.toNat := by omega
            rw [if_pos h3]
          · by_cases h4 : z.toNat < y.toNat
            · rw [if_neg h2, if_pos h4] at hbc
              exact absurd hbc (by decide)
            · have h3 : x.toNat < z.toNat := by omega
              rw [if_pos h3]
        · by_cases h5 : y.toNat < x.toNat
          · rw [if_neg h1, if_pos h5] at hab
            exact absurd hab (by decide)
          · by_cases h2 : y.toNat < z.toNat
            · have h3 : x.toNat < z.toNat := by omega
              rw [if_pos h3]
            · by_cases h4 : z.toNat < y.toNat
              · rw [if_neg h2, if_pos h4] at hbc
                exact absurd hbc (by decide)
              · have e1 : ¬ x.toNat < z.toNat := by omega
                have e2 : ¬ z.toNat < x.toNat := by omega
                rw [if_neg h1, if_neg h5] at hab
                rw [if_neg h2, if_neg h4] at hbc
                rw [if_neg e1, if_neg e2]
                exact ih ys zs hab hbc

theorem keyLeB_total (p q : Bool × String) : keyLeB p q = true ∨ keyLeB q p = true := by
  rcases p with ⟨a, s⟩
  rcases q with ⟨b, t⟩
  cases a <;> cases b <;> simp [keyLeB] <;> exact strLeB_total _ _

theorem keyLeB_trans (p q r : Bool × String) :
    keyLeB p q = true → keyLeB q r = true → keyLeB p r = true := by
  rcases p with ⟨a, s⟩
  rcases q with ⟨b, t⟩
  rcases r with ⟨c, u⟩
  cases a <;> cases b <;> cases c <;> simp [keyLeB] <;>
    exact strLeB_trans _ _ _

/-! ### Claim C10 -/

/-- Claim C10: constructing the archiver with an explicitly empty
ignore-pattern list yields the built-in default pattern set — at the
public interface, passing the empty list is indistinguishable from
passing no ignore patterns at all. -/
theorem c10_empty_patterns_default (max_file_size : Nat) (include_binary : Bool) :
    mkArchiver (some []) max_file_size include_binary
      = mkArchiver none max_file_size include_binary
  ∧ (mkArchiver (some []) max_file_size include_binary).ignore_patterns
      = default_ignore_patterns :=
  ⟨rfl, rfl⟩

/-! ### Claim C2 -/

theorem validXmlCp_clean (code : Nat) : validXmlCp (clean_xml_cp code) = true := by
  unfold clean_xml_cp
  split
  · assumption
  · decide

/-- Claim C2: the content sanitizer maps each code point independently —
the output has the same length, the code point at every position is the
input's code point if it lies in the legal ranges and U+FFFD otherwise,
and every output code point lies in the legal ranges. -/
theorem c2_sanitize (content : List Nat) (i : Nat) (code : Nat) :
    (clean_xml_content content).length = content.length
  ∧ (clean_xml_content content)[i]? = content[i]?.map clean_xml_cp
  ∧ (validXmlCp code = true → clean_xml_cp code = code)
  ∧ (validXmlCp code = false → clean_xml_cp code = 0xFFFD)
  ∧ (clean_xml_content content).all validXmlCp = true := by
  refine ⟨List.length_map _ _, List.getElem?_map _ _ _, ?_, ?_, ?_⟩
  · intro h; simp [clean_xml_cp, h]
  · intro h; simp [clean_xml_cp, h]
  · rw [List.all_eq_true]
    intro x hx
    rcases List.mem_map.mp hx with ⟨c, _, rfl⟩
    exact validXmlCp_clean c

/-- Witness for C2 at a concrete input: code point 9 (tab) is legal and
kept, code point 5 is illegal and replaced. -/
theorem c2_sanitize_witness :
    (clean_xml_content [9, 5]).length = 2 ∧ clean_xml_cp 9 = 9 ∧ clean_xml_cp 5 = 0xFFFD :=
  ⟨(c2_sanitize [9, 5] 0 9).1, (c2_sanitize [9, 5] 0 9).2.2.1 (by decide),
   (c2_sanitize [9, 5] 0 5).2.2.2.1 (by decide)⟩

/-! ### Claim C1 -/

/-- Claim C1: archiving a directory holding exactly `main.py`
(`print(1)`) and `README.md` (`hi`) with the default configuration
produces a document whose files section holds exactly two `file`
elements, each with a `content` child carrying the original text, and
whose metadata statistics carry `total_files="2"`. -/
theorem c1_round_trip :
    ((c1_doc.children.find? (fun c => c.tag == "files")).map
        (fun fs => fs.children.map Element.tag)) = some ["file", "file"]
  ∧ ((c1_doc.children.find? (fun c => c.tag == "files")).map
        (fun fs => fs.children.map (fun f =>
          (f.attr "name", f.children.map (fun c => (c.tag, c.textOf))))))
      = some [(some "main.py", [("content", some "print(1)")]),
              (some "README.md", [("content", some "hi")])]
  ∧ (((c1_doc.children.find? (fun c => c.tag == "metadata")).bind
        (fun m => m.children.find? (fun c => c.tag == "statistics"))).map
        (fun s => s.attr "total_files")) = some (some "2") := by
  decide

/-! ### Claim C3 -/

/-- Counterexample for C3: the filter does not decide glob-holding
patterns by the spec's anchored glob on the final segment — the pattern
`a?c` contains `?` yet fails to match the segment `abc` (it is compared
literally because it holds no `*`), while `*.log` matches the segment
`axlog` (the translated regex leaves `.` unescaped) although the glob
does not. -/
theorem c3_counterexample :
    spec_glob_match "a?c".data "abc".data = true
  ∧ should_ignore ["a?c"] "r/abc" "abc" = false
  ∧ spec_glob_match "*.log".data "axlog".data = false
  ∧ should_ignore ["*.log"] "r/axlog" "axlog" = true := by
  decide

/-! ### Claim C4 -/

theorem match_glob_eq_spec (p : List Char) :
    ∀ s, p.any (fun c => c == '?') = false → p.any (fun c => c == '.') = false →
      match_glob_regex p s = spec_glob_match p s := by
  induction p with
  | nil => intro s _ _; rfl
  | cons c ps ih =>
    intro s hq hd
    rw [List.any_cons, Bool.or_eq_false_iff] at hq hd
    simp only [match_glob_regex, spec_glob_match]
    by_cases hstar : (c == '*') = true
    · rw [if_pos hstar, if_pos hstar]
      have hfun : (fun t => match_glob_regex ps t) = (fun t => spec_glob_match ps t) := by
        funext t
        exact ih t hq.2 hd.2
      rw [hfun]
    · rw [if_neg hstar, if_neg hstar, hq.1, hd.1]
      simp only [Bool.or_self, Bool.false_eq_true, if_false]
      cases s with
      | nil => rfl
      | cons b s' =>
        show (c == b && match_glob_regex ps s') = (c == b && spec_glob_match ps s')
        rw [ih s' hq.2 hd.2]

/-- Claim C3 (amended): only patterns containing `*` are glob-compiled;
for them the filter tests the path's final segment against the anchored
pattern in which `*` matches any run and both `?` and `.` match any
single character (the glob-to-regex translation leaves `.` unescaped),
which coincides with the spec's anchored glob whenever the pattern
contains neither `?` nor `.`.  A pattern containing `?` but no `*` is
matched only by literal equality with the final segment. -/
theorem c3_amended (pattern name : String) :
    (containsCharB pattern '*' = false → match_pattern name pattern = (name == pattern))
  ∧ (containsCharB pattern '*' = true →
      match_pattern name pattern = match_glob_regex pattern.data name.data)
  ∧ (containsCharB pattern '*' = true → containsCharB pattern '?' = false →
      containsCharB pattern '.' = false →
      match_pattern name pattern = spec_glob_match pattern.data name.data) := by
  refine ⟨?_, ?_, ?_⟩
  · intro h
    simp only [match_pattern, h, Bool.false_eq_true, if_false]
  · intro h
    simp only [match_pattern, h, if_true]
  · intro h hq hd
    simp only [match_pattern, h, if_true]
    exact match_glob_eq_spec pattern.data name.data hq hd

/-- Witness for the amended C3: a `*`-pattern free of `?` and `.` agrees
with the spec glob, and a `?`-only pattern is compared literally. -/
theorem c3_amended_witness :
    match_pattern "axc" "a*c" = spec_glob_match "a*c".data "axc".data
  ∧ match_pattern "abc" "a?c" = ("abc" == "a?c") :=
  ⟨(c3_amended "a*c" "axc").2.2 (by decide) (by decide) (by decide),
   (c3_amended "a?c" "abc").1 (by decide)⟩

/-- Claim C4 (amended): with binary inclusion disabled, the
text-eligibility check rejects exactly those files whose classification
tag contains a member of the binary-tag set as a substring; a file whose
tag contains no member as a substring is never rejected as binary and
its verdict is exactly the 1KB-read check. -/
theorem c4_amended (include_binary : Bool) (name : String) (content : Option String) :
    (is_text_file false name content
      = (!(binary_types.any (fun bt => substrB bt (detect_type name))) && content.isSome))
  ∧ (binary_types.all (fun bt => !substrB bt (detect_type name)) = true →
      is_text_file include_binary name content = content.isSome) := by
  constructor
  · unfold is_text_file
    by_cases h : binary_types.any (fun bt => substrB bt (detect_type name)) = true
    · simp [h]
    · simp [Bool.eq_false_iff.mpr h]
  · intro hall
    have hany : binary_types.any (fun bt => substrB bt (detect_type name)) = false := by
      rw [List.any_eq_false]
      intro bt hbt
      have hbt2 := List.all_eq_true.mp hall bt hbt
      simpa using hbt2
    unfold is_text_file
    simp [hany]

/-- Witness for the amended C4: the tag `python` contains no binary tag,
so a readable `a.py` passes the text check. -/
theorem c4_amended_witness : is_text_file false "a.py" (some "x") = true := by
  have h := (c4_amended false "a.py" (some "x")).2 (by decide)
  simpa using h

/-- Counterexample for C4: the tag `unknown.imagex` (produced for
`a.imagex`) is not a member of the binary-tag set, yet the file is
rejected as binary even though its 1KB read would succeed — the source
tests substring containment (`bt in file_type`), not membership. -/
theorem c4_counterexample :
    detect_type "a.imagex" = "unknown.imagex"
  ∧ binary_types.contains "unknown.imagex" = false
  ∧ is_text_file false "a.imagex" (some "hello") = false := by
  decide

/-! ### Claim C5 -/

/-- Counterexample for C5: a permission error while reading `a.py`
(its stat succeeds, its open/read raises) yields a file element that
keeps the classified type `python` with a "Binary file - content
skipped" note; no element of the output has type `inaccessible`. -/
theorem c5_counterexample :
    (files_pass defaultConfig "r" c5_fs).map (fun e => e.attr "type") = [some "python"]
  ∧ (files_pass defaultConfig "r" c5_fs).map
      (fun e => e.children.map (fun c => (c.tag, c.textOf)))
      = [[("note", some "Binary file - content skipped")]]
  ∧ (files_pass defaultConfig "r" c5_fs).all
      (fun e => e.attr "type" != some "inaccessible") = true := by
  decide

/-! ### Claim C6 -/

/-- Counterexample for C6: for `A.QQQ` — not a special file, extension in
no table, MIME type not guessable — the result is `unknown.qqq`, the
lower-cased extension, not the literal extension `.QQQ` as it appears in
the name. -/
theorem c6_counterexample :
    pathSuffix "A.QQQ" = ".QQQ"
  ∧ SPECIAL_FILES.lookup "A.QQQ" = none
  ∧ PROGRAMMING_EXTENSIONS.lookup ".qqq" = none
  ∧ CONFIG_EXTENSIONS.lookup ".qqq" = none
  ∧ DOCUMENTATION_EXTENSIONS.lookup ".qqq" = none
  ∧ WEB_EXTENSIONS.lookup ".qqq" = none
  ∧ DATA_EXTENSIONS.lookup ".qqq" = none
  ∧ MEDIA_EXTENSIONS.lookup ".qqq" = none
  ∧ mime_guess ".qqq" = none
  ∧ detect_type "A.QQQ" = "unknown.qqq"
  ∧ detect_type "A.QQQ" ≠ "unknown" ++ pathSuffix "A.QQQ" := by
  refine ⟨rfl, rfl, rfl, rfl, rfl, rfl, rfl, rfl, rfl, by decide, by decide⟩

/-! ### Claim C7 -/

/-- Counterexample for C7: a static tree holding one non-ignored file
whose `stat` raises persistently reports `total_files = 0`, not 1 —
`Path.is_file()` returns `False` when `stat` fails, so the file is
skipped entirely rather than counted without a size. -/
theorem c7_counterexample :
    (rglobNode "r" c7_fs).length = 1
  ∧ should_ignore default_ignore_patterns "r/f.txt" "f.txt" = false
  ∧ (extract_metadata default_ignore_patterns "r" c7_fs).total_files = 0 := by
  decide

/-! ### Characterizing `detect_type` results -/

theorem lookup_val_mem {l : List (String × String)} {k v : String}
    (h : l.lookup k = some v) : v ∈ l.map Prod.snd := by
  induction l with
  | nil => simp [List.lookup] at h
  | cons kv rest ih =>
    rcases kv with ⟨k', v'⟩
    simp only [List.lookup] at h
    cases hkk : (k == k') with
    | true =>
      rw [hkk] at h
      injection h with h
      simp [h]
    | false =>
      rw [hkk] at h
      exact List.mem_cons_of_mem _ (ih h)

theorem mime_category_mem {m t : String} (h : mime_category m = some t) :
    t ∈ ["text", "image", "audio", "video", "binary"] := by
  unfold mime_category at h
  split_ifs at h <;> simp_all

theorem strAppendData (s t : String) : (s ++ t).data = s.data ++ t.data := rfl

/-- Every `detect_type` result comes from a table / MIME category, or is
`unknown` plus the lower-cased suffix, or is the bare `unknown`. -/
theorem detect_type_cases (filename : String) :
    detect_type filename ∈ allTableTags ∨
    detect_type filename = "unknown" ++ lowerStr (pathSuffix filename) ∨
    detect_type filename = "unknown" := by
  simp only [detect_type]
  cases h1 : SPECIAL_FILES.lookup filename with
  | some t =>
    left
    have hmem := lookup_val_mem h1
    simp only [allTableTags, List.mem_append]
    tauto
  | none =>
  cases h2 : PROGRAMMING_EXTENSIONS.lookup (lowerStr (pathSuffix filename)) with
  | some t =>
    left
    have hmem := lookup_val_mem h2
    simp only [allTableTags, List.mem_append]
    tauto
  | none =>
  cases h3 : CONFIG_EXTENSIONS.lookup (lowerStr (pathSuffix filename)) with
  | some t =>
    left
    have hmem := lookup_val_mem h3
    simp only [allTableTags, List.mem_append]
    tauto
  | none =>
  cases h4 : DOCUMENTATION_EXTENSIONS.lookup (lowerStr (pathSuffix filename)) with
  | some t =>
    left
    have hmem := lookup_val_mem h4
    simp only [allTableTags, List.mem_append]
    tauto
  | none =>
  cases h5 : WEB_EXTENSIONS.lookup (lowerStr (pathSuffix filename)) with
  | some t =>
    left
    have hmem := lookup_val_mem h5
    simp only [allTableTags, List.mem_append]
    tauto
  | none =>
  cases h6 : DATA_EXTENSIONS.lookup (lowerStr (pathSuffix filename)) with
  | some t =>
    left
    have hmem := lookup_val_mem h6
    simp only [allTableTags, List.mem_append]
    tauto
  | none =>
  cases h7 : MEDIA_EXTENSIONS.lookup (lowerStr (pathSuffix filename)) with
  | some t =>
    left
    have hmem := lookup_val_mem h7
    simp only [allTableTags, List.mem_append]
    tauto
  | none =>
  cases h8 : (mime_guess (lowerStr (pathSuffix filename))).bind mime_category with
  | some t =>
    left
    rcases Option.bind_eq_some.mp h8 with ⟨m, _, hcat⟩
    have hmem := mime_category_mem hcat
    simp only [allTableTags, List.mem_append]
    tauto
  | none =>
  by_cases hs : (lowerStr (pathSuffix filename) != "") = true
  · rw [if_pos hs]
    right; left; rfl
  · rw [if_neg hs]
    right; right; rfl

theorem detect_type_ne_empty (filename : String) : detect_type filename ≠ "" := by
  rcases detect_type_cases filename with h | h | h
  · intro he
    rw [he] at h
    revert h
    decide
  · intro he
    rw [he] at h
    have hd := congrArg String.data h.symm
    rw [strAppendData] at hd
    simp at hd
  · intro he
    rw [he] at h
    exact absurd h.symm (by decide)

theorem detect_type_ne_inaccessible (filename : String) :
    detect_type filename ≠ "inaccessible" := by
  rcases detect_type_cases filename with h | h | h
  · intro he
    rw [he] at h
    revert h
    decide
  · intro he
    rw [he] at h
    have hd := congrArg String.data h
    rw [strAppendData] at hd
    simp at hd
  · intro he
    rw [he] at h
    exact absurd h (by decide)

theorem lowerStr_empty_iff (s : String) : lowerStr s = "" ↔ s = "" := by
  cases s with
  | mk data =>
    constructor
    · intro h
      have hd := congrArg String.data h
      simp only [lowerStr] at hd
      have h2 : data.map asciiLowerChar = [] := hd
      have h3 : data = [] := List.map_eq_nil_iff.mp h2
      subst h3
      rfl
    · intro h
      rw [h]
      rfl

/-! ### Claim C6 (amended) -/

/-- Claim C6 (amended): `detect_type` is total — it always returns a
non-empty string — and for every file name that is not a special file,
whose (lower-cased) extension matches no lookup table, and whose MIME
type cannot be guessed, the result is `unknown` followed by the
lower-cased extension when the name has one, and `unknown` otherwise
(the source lower-cases the suffix before appending it, so the literal
extension of the claim survives only up to case). -/
theorem c6_amended :
    (∀ filename, detect_type filename ≠ "")
  ∧ (∀ filename,
      SPECIAL_FILES.lookup filename = none →
      PROGRAMMING_EXTENSIONS.lookup (lowerStr (pathSuffix filename)) = none →
      CONFIG_EXTENSIONS.lookup (lowerStr (pathSuffix filename)) = none →
      DOCUMENTATION_EXTENSIONS.lookup (lowerStr (pathSuffix filename)) = none →
      WEB_EXTENSIONS.lookup (lowerStr (pathSuffix filename)) = none →
      DATA_EXTENSIONS.lookup (lowerStr (pathSuffix filename)) = none →
      MEDIA_EXTENSIONS.lookup (lowerStr (pathSuffix filename)) = none →
      mime_guess (lowerStr (pathSuffix filename)) = none →
      (pathSuffix filename ≠ "" →
        detect_type filename = "unknown" ++ lowerStr (pathSuffix filename))
      ∧ (pathSuffix filename = "" → detect_type filename = "unknown")) := by
  constructor
  · exact detect_type_ne_empty
  · intro filename h1 h2 h3 h4 h5 h6 h7 h8
    constructor
    · intro hne
      have hlow : lowerStr (pathSuffix filename) ≠ "" :=
        fun hh => hne ((lowerStr_empty_iff _).mp hh)
      have hb : (lowerStr (pathSuffix filename) != "") = true := by
        simpa [bne] using hlow
      simp only [detect_type, h1, h2, h3, h4, h5, h6, h7, h8, Option.none_bind]
      rw [if_pos hb]
    · intro heq
      have hlow : lowerStr (pathSuffix filename) = "" := by
        rw [heq]
        rfl
      have hb : ¬ ((lowerStr (pathSuffix filename) != "") = true) := by
        simp [bne, hlow]
      simp only [detect_type, h1, h2, h3, h4, h5, h6, h7, h8, Option.none_bind]
      rw [if_neg hb]

/-- Witness for the amended C6: `zz.qqq` falls through every table and
gets `unknown.qqq`; `noext` gets a non-empty tag. -/
theorem c6_amended_witness :
    detect_type "zz.qqq" = "unknown.qqq" ∧ detect_type "noext" ≠ "" := by
  constructor
  · have h := (c6_amended.2 "zz.qqq" (by decide) (by decide) (by decide) (by decide)
      (by decide) (by decide) (by decide) (by decide)).1 (by decide)
    rw [h]
    decide
  · exact c6_amended.1 "noext"

/-! ### Claim C7 (amended) -/

theorem foldl_metadata_files (pats : List String) (l : List (String × String × FSNode)) :
    ∀ m : Metadata, (l.foldl (metadataStep pats) m).total_files
      = m.total_files + l.countP (fun e => isFileB e.2.2 && !should_ignore pats e.1 e.2.1) := by
  induction l with
  | nil => intro m; simp
  | cons e rest ih =>
    intro m
    rcases e with ⟨p, n, node⟩
    rw [List.foldl_cons, List.countP_cons, ih]
    by_cases hig : should_ignore pats p n = true
    · simp [metadataStep, hig]
    · have hig' : should_ignore pats p n = false := by simpa using hig
      cases node with
      | file st content =>
        cases st with
        | some s =>
          simp [metadataStep, hig', isFileB]
          omega
        | none => simp [metadataStep, hig', isFileB]
      | dir listable es => simp [metadataStep, hig', isFileB]

theorem foldl_metadata_dirs (pats : List String) (l : List (String × String × FSNode)) :
    ∀ m : Metadata, (l.foldl (metadataStep pats) m).total_directories
      = m.total_directories + l.countP (fun e => isDirB e.2.2 && !should_ignore pats e.1 e.2.1) := by
  induction l with
  | nil => intro m; simp
  | cons e rest ih =>
    intro m
    rcases e with ⟨p, n, node⟩
    rw [List.foldl_cons, List.countP_cons, ih]
    by_cases hig : should_ignore pats p n = true
    · simp [metadataStep, hig]
    · have hig' : should_ignore pats p n = false := by simpa using hig
      cases node with
      | file st content =>
        cases st with
        | some s => simp [metadataStep, hig', isDirB]
        | none => simp [metadataStep, hig', isDirB]
      | dir listable es =>
        simp [metadataStep, hig', isDirB]
        omega

/-- Claim C7 (amended): for a static tree, `total_files` equals the
number of traversal-reachable non-ignored files whose stat succeeds
(`is_file()` true) and `total_directories` the number of reachable
non-ignored directories.  A file whose stat fails persistently is not
counted at all — `Path.is_file()` reports False for it — rather than
being counted without a size contribution. -/
theorem c7_amended (pats : List String) (rootPath : String) (root : FSNode) :
    (extract_metadata pats rootPath root).total_files
      = (rglobNode rootPath root).countP
          (fun e => isFileB e.2.2 && !should_ignore pats e.1 e.2.1)
  ∧ (extract_metadata pats rootPath root).total_directories
      = (rglobNode rootPath root).countP
          (fun e => isDirB e.2.2 && !should_ignore pats e.1 e.2.1) := by
  constructor
  · rw [extract_metadata, foldl_metadata_files]
    simp
  · rw [extract_metadata, foldl_metadata_dirs]
    simp

/-! ### Claim C9 -/

/-- Claim C9: a non-ignored, stat-able file within the size limit that
passes the text-eligibility check but whose content is empty or
whitespace-only yields a file element with no children at all (no
`content`, no `note`) and no `lines` attribute — only the name, path,
type and stat attributes. -/
theorem c9_whitespace_silent (cfg : Config) (rootPath pathStr name : String)
    (st : Stat) (s : String) (root : FSNode)
    (hmem : (pathStr, name, FSNode.file (some st) (some s)) ∈ rglobNode rootPath root)
    (hig : should_ignore cfg.ignore_patterns pathStr name = false)
    (hsize : st.size ≤ cfg.max_file_size)
    (htext : is_text_file cfg.include_binary name (some s) = true)
    (hws : stripTruthy s = false) :
    file_entry cfg pathStr name st (some s) ∈ files_pass cfg rootPath root
  ∧ (file_entry cfg pathStr name st (some s)).children = []
  ∧ (file_entry cfg pathStr name st (some s)).attr "lines" = none
  ∧ (file_entry cfg pathStr name st (some s)).attrs.map Prod.fst
      = ["name", "path", "type", "size", "modified", "created", "permissions"] := by
  have hc : decide (st.size ≤ cfg.max_file_size) = true := decide_eq_true hsize
  have hmain : file_entry cfg pathStr name st (some s)
      = Element.mk "file" [("name", name), ("path", pathStr), ("type", detect_type name),
          ("size", toString st.size), ("modified", st.modified),
          ("created", st.created), ("permissions", st.permissions)] none [] := by
    unfold file_entry
    simp only [hc, htext, Bool.and_self, if_true, hws, Bool.false_eq_true, if_false]
  refine ⟨?_, ?_, ?_, ?_⟩
  · apply List.mem_filterMap.mpr
    refine ⟨(pathStr, name, FSNode.file (some st) (some s)), hmem, ?_⟩
    simp [files_entry_fun, hig]
  · rw [hmain]; rfl
  · rw [hmain]; rfl
  · rw [hmain]; rfl

/-! ### Claim C5 (amended) -/

theorem file_entry_attr_path (cfg : Config) (p n : String) (st : Stat) (c : Option String) :
    (file_entry cfg p n st c).attr "path" = some p := by
  unfold file_entry
  repeat' split
  all_goals rfl

theorem file_entry_attr_type (cfg : Config) (p n : String) (st : Stat) (c : Option String) :
    (file_entry cfg p n st c).attr "type" = some (detect_type n) := by
  unfold file_entry
  repeat' split
  all_goals rfl

theorem is_text_file_none (include_binary : Bool) (name : String) :
    is_text_file include_binary name none = false := by
  unfold is_text_file
  split
  · rfl
  · rfl

theorem files_entry_fun_some {cfg : Config} {e : String × String × FSNode} {el : Element}
    (h : files_entry_fun cfg e = some el) :
    el.attr "path" = some e.1 ∧ el.attr "type" = some (detect_type e.2.1) := by
  rcases e with ⟨p, n, node⟩
  cases node with
  | file st content =>
    cases st with
    | some s =>
      simp only [files_entry_fun] at h
      by_cases hig : should_ignore cfg.ignore_patterns p n = true
      · rw [if_pos hig] at h
        cases h
      · rw [if_neg hig] at h
        injection h with h
        subst h
        exact ⟨file_entry_attr_path cfg p n s content, file_entry_attr_type cfg p n s content⟩
    | none => cases h
  | dir listable es => cases h

theorem files_entry_fun_isSome (cfg : Config) (e : String × String × FSNode) :
    (files_entry_fun cfg e).isSome
      = (isFileB e.2.2 && !should_ignore cfg.ignore_patterns e.1 e.2.1) := by
  rcases e with ⟨p, n, node⟩
  cases node with
  | file st content =>
    cases st with
    | some s =>
      simp only [files_entry_fun, isFileB]
      by_cases hig : should_ignore cfg.ignore_patterns p n = true
      · rw [if_pos hig]
        simp [hig]
      · have hig' : should_ignore cfg.ignore_patterns p n = false := by simpa using hig
        rw [if_neg hig]
        simp [hig']
    | none => simp [files_entry_fun, isFileB]
  | dir listable es => simp [files_entry_fun, isFileB]

theorem length_filterMap_eq_countP {α β : Type} (f : α → Option β) (l : List α) :
    (l.filterMap f).length = l.countP (fun a => (f a).isSome) := by
  induction l with
  | nil => rfl
  | cons a t ih =>
    rw [List.filterMap_cons, List.countP_cons]
    cases hfa : f a with
    | none => simp [hfa, ih]
    | some b => simp [hfa, ih]

theorem countP_filterMap {α β : Type} (f : α → Option β) (p : β → Bool) (l : List α) :
    (l.filterMap f).countP p = l.countP (fun a => ((f a).map p).getD false) := by
  induction l with
  | nil => rfl
  | cons a t ih =>
    rw [List.filterMap_cons, List.countP_cons]
    cases hfa : f a with
    | none => simp [hfa, ih]
    | some b =>
      rw [List.countP_cons]
      simp [hfa, ih]

theorem countP_eq_one_of_nodup_map {α β : Type} {l : List α} {g : α → β}
    (hnd : (l.map g).Nodup) {x : α} (hx : x ∈ l) {p : α → Bool}
    (hpx : p x = true) (himp : ∀ y, p y = true → g y = g x) :
    l.countP p = 1 := by
  induction l with
  | nil => cases hx
  | cons a t ih =>
    rw [List.map_cons, List.nodup_cons] at hnd
    rw [List.countP_cons]
    rcases List.mem_cons.mp hx with rfl | hxt
    · have hzero : t.countP p = 0 := by
        rw [List.countP_eq_zero]
        intro y hy hpy
        exact hnd.1 ((himp y hpy) ▸ List.mem_map_of_mem g hy)
      rw [hzero, hpx]
      rfl
    · have hpa : p a = false := by
        by_contra hpa
        have hpa' : p a = true := by simpa using hpa
        exact hnd.1 ((himp a hpa') ▸ List.mem_map_of_mem g hxt)
      rw [hpa]
      simpa using ih hnd.2 hxt

/-- The files section never holds an element with type `inaccessible`
(in a static tree the degraded branch is unreachable, and no
classification tag equals `inaccessible`). -/
theorem files_pass_no_inaccessible (cfg : Config) (rootPath : String) (root : FSNode) :
    ∀ el ∈ files_pass cfg rootPath root, el.attr "type" ≠ some "inaccessible" := by
  intro el hel
  rcases List.mem_filterMap.mp hel with ⟨e, _, hfe⟩
  have htype := (files_entry_fun_some hfe).2
  rw [htype]
  intro hcontra
  injection hcontra with hcontra
  exact detect_type_ne_inaccessible e.2.1 hcontra

/-- The files section holds exactly one element per non-ignored
`is_file()` entry of the traversal. -/
theorem files_pass_length (cfg : Config) (rootPath : String) (root : FSNode) :
    (files_pass cfg rootPath root).length
      = (rglobNode rootPath root).countP
          (fun e => isFileB e.2.2 && !should_ignore cfg.ignore_patterns e.1 e.2.1) := by
  rw [files_pass, length_filterMap_eq_countP]
  simp only [files_entry_fun_isSome]

/-- Claim C5 (amended): in a static tree, an OS or permission error while
reading a non-ignored file (its stat succeeds, its open/read raises)
leaves that path with exactly one file element, which keeps the
classified type and carries the note "Binary file - content skipped"
(the eligibility probe fails first) and no content child; no element of
the files section ever has type `inaccessible`; and the walk continues —
the files section holds one element per remaining non-ignored file.  A
file whose stat fails persistently is skipped entirely; the degraded
`inaccessible` element could arise only if the tree mutated between the
`is_file()` check and the later stat/read calls. -/
theorem c5_amended (cfg : Config) (rootPath pathStr name : String) (st : Stat) (root : FSNode)
    (hmem : (pathStr, name, FSNode.file (some st) none) ∈ rglobNode rootPath root)
    (hig : should_ignore cfg.ignore_patterns pathStr name = false)
    (hsize : st.size ≤ cfg.max_file_size)
    (hnd : ((rglobNode rootPath root).map (fun e => e.1)).Nodup) :
    file_entry cfg pathStr name st none ∈ files_pass cfg rootPath root
  ∧ (file_entry cfg pathStr name st none).attr "type" = some (detect_type name)
  ∧ (file_entry cfg pathStr name st none).children.map (fun c => (c.tag, c.textOf))
      = [("note", some "Binary file - content skipped")]
  ∧ (∀ el ∈ files_pass cfg rootPath root, el.attr "type" ≠ some "inaccessible")
  ∧ (files_pass cfg rootPath root).countP
      (fun el => el.attr "path" == some pathStr) = 1
  ∧ (files_pass cfg rootPath root).length
      = (rglobNode rootPath root).countP
          (fun e => isFileB e.2.2 && !should_ignore cfg.ignore_patterns e.1 e.2.1) := by
  have hfun : files_entry_fun cfg (pathStr, name, FSNode.file (some st) none)
      = some (file_entry cfg pathStr name st none) := by
    simp [files_entry_fun, hig]
  have hnote : file_entry cfg pathStr name st none
      = Element.mk "file" [("name", name), ("path", pathStr), ("type", detect_type name),
          ("size", toString st.size), ("modified", st.modified),
          ("created", st.created), ("permissions", st.permissions)] none
          [Element.mk "note" [] (some "Binary file - content skipped") []] := by
    unfold file_entry
    rw [is_text_file_none]
    have hc : (decide (st.size ≤ cfg.max_file_size) && false) = false := by
      simp
    rw [hc]
    simp only [Bool.false_eq_true, if_false]
    rw [if_neg (by omega : ¬ cfg.max_file_size < st.size)]
  refine ⟨?_, file_entry_attr_type cfg pathStr name st none, ?_,
    files_pass_no_inaccessible cfg rootPath root, ?_, files_pass_length cfg rootPath root⟩
  · exact List.mem_filterMap.mpr ⟨(pathStr, name, FSNode.file (some st) none), hmem, hfun⟩
  · rw [hnote]
    rfl
  · rw [files_pass, countP_filterMap]
    apply countP_eq_one_of_nodup_map (g := fun e => e.1) hnd hmem
    · rw [hfun]
      show ((file_entry cfg pathStr name st none).attr "path" == some pathStr) = true
      rw [file_entry_attr_path]
      simp
    · intro y hy
      cases hfy : files_entry_fun cfg y with
      | none => rw [hfy] at hy; simp at hy
      | some el =>
        rw [hfy] at hy
        have hy' : (el.attr "path" == some pathStr) = true := hy
        have hpath := (files_entry_fun_some hfy).1
        rw [hpath] at hy'
        have h2 := eq_of_beq hy'
        injection h2

/-- Witness for the amended C5 on the unreadable `a.py` of `c5_fs`. -/
theorem c5_amended_witness :
    file_entry defaultConfig "r/a.py" "a.py" ⟨5, "m", "c", "000"⟩ none
      ∈ files_pass defaultConfig "r" c5_fs
  ∧ (file_entry defaultConfig "r/a.py" "a.py" ⟨5, "m", "c", "000"⟩ none).attr "type"
      = some (detect_type "a.py") := by
  have h := c5_amended defaultConfig "r" "r/a.py" "a.py" ⟨5, "m", "c", "000"⟩ c5_fs
    (List.mem_singleton.mpr rfl) (by decide) (by decide) (by decide)
  exact ⟨h.1, h.2.1⟩

/-- Witness for C9 on the concrete whitespace-only file `ws.py`. -/
theorem c9_whitespace_silent_witness :
    file_entry defaultConfig "r/ws.py" "ws.py" ⟨3, "m", "c", "644"⟩ (some " \n ")
      ∈ files_pass defaultConfig "r" c9_fs
  ∧ (file_entry defaultConfig "r/ws.py" "ws.py" ⟨3, "m", "c", "644"⟩ (some " \n ")).children
      = [] := by
  have h := c9_whitespace_silent defaultConfig "r" "r/ws.py" "ws.py"
    ⟨3, "m", "c", "644"⟩ " \n " c9_fs
    (List.mem_singleton.mpr rfl) (by decide) (by decide) (by decide) (by decide)
  exact ⟨h.1, h.2.1⟩

/-! ### Claim C8 -/

theorem buildEntries_key (pats : List String) (dirPath : String) :
    ∀ (es : FSEntries) (x : String × FSNode × Element),
      x ∈ buildEntries pats dirPath es → elemKey x.2.2 = entryKey x.1 x.2.1
  | .nil, x, hx => absurd hx (by simp [buildEntries])
  | .cons n c rest, x, hx => by
    rw [buildEntries] at hx
    rcases List.mem_cons.mp hx with rfl | hxr
    · cases c with
      | file st ct =>
        cases st with
        | some s => rfl
        | none => rfl
      | dir li ch => rfl
    · exact buildEntries_key pats dirPath rest x hxr

theorem mem_buildEntries_of_mem_kept {pats : List String} {pathStr : String} {es : FSEntries}
    {q : String × FSNode × Element → Bool} {x : String × FSNode × Element}
    (hx : x ∈ ((buildEntries pats pathStr es).insertionSort triR).filter q) :
    x ∈ buildEntries pats pathStr es :=
  (List.perm_insertionSort triR (buildEntries pats pathStr es)).mem_iff.mp
    (List.mem_of_mem_filter hx)

/-- The immediate children of any structure-tree node are sorted by the
key `(is-file, lowercase name)`. -/
theorem build_children_sorted (pats : List String) (pathStr name : String) (fs : FSNode) :
    List.Pairwise (fun k1 k2 => keyLeB k1 k2 = true)
      (childKeys (build_structure_tree pats pathStr name fs)) := by
  cases fs with
  | file st c =>
    cases st with
    | some s => simp [build_structure_tree, childKeys, Element.children]
    | none => simp [build_structure_tree, childKeys, Element.children]
  | dir listable es =>
    cases listable with
    | false => simp [build_structure_tree, childKeys, Element.children]
    | true =>
      haveI : IsTotal (String × FSNode × Element) triR := ⟨fun x y => keyLeB_total _ _⟩
      haveI : IsTrans (String × FSNode × Element) triR := ⟨fun x y z => keyLeB_trans _ _ _⟩
      have hsorted : List.Pairwise triR
          ((buildEntries pats pathStr es).insertionSort triR) :=
        List.sorted_insertionSort triR _
      have hkept : List.Pairwise triR
          (((buildEntries pats pathStr es).insertionSort triR).filter
            (fun x => !should_ignore pats (pathStr ++ "/" ++ x.1) x.1)) :=
        hsorted.sublist (List.filter_sublist _)
      have hpair : List.Pairwise
          (fun a b => keyLeB (elemKey a.2.2) (elemKey b.2.2) = true)
          (((buildEntries pats pathStr es).insertionSort triR).filter
            (fun x => !should_ignore pats (pathStr ++ "/" ++ x.1) x.1)) := by
        refine List.Pairwise.imp_of_mem ?_ hkept
        intro a b ha hb hr
        rw [buildEntries_key pats pathStr es a (mem_buildEntries_of_mem_kept ha),
            buildEntries_key pats pathStr es b (mem_buildEntries_of_mem_kept hb)]
        exact hr
      simp only [build_structure_tree, childKeys, Element.children, if_true,
        List.map_map]
      rw [List.pairwise_map]
      exact hpair

mutual
/-- Every node of a built structure tree satisfies the deep sortedness
property. -/
theorem deepSorted_build (pats : List String) (pathStr name : String) (fs : FSNode) :
    DeepSorted (build_structure_tree pats pathStr name fs) := by
  refine DeepSorted.node _ (build_children_sorted pats pathStr name fs) ?_
  intro c hc
  cases fs with
  | file st ct =>
    cases st with
    | some s => simp [build_structure_tree, Element.children] at hc
    | none => simp [build_structure_tree, Element.children] at hc
  | dir listable es =>
    cases listable with
    | false => simp [build_structure_tree, Element.children] at hc
    | true =>
      simp only [build_structure_tree, Element.children, if_true] at hc
      rcases List.mem_map.mp hc with ⟨x, hx, rfl⟩
      exact deepSorted_entries pats pathStr es x (mem_buildEntries_of_mem_kept hx)
/-- Every element built for a directory entry satisfies the deep
sortedness property. -/
theorem deepSorted_entries (pats : List String) (dirPath : String) :
    ∀ (es : FSEntries) (x : String × FSNode × Element),
      x ∈ buildEntries pats dirPath es → DeepSorted x.2.2
  | .nil, x, hx => absurd hx (by simp [buildEntries])
  | .cons n c rest, x, hx => by
    rw [buildEntries] at hx
    rcases List.mem_cons.mp hx with rfl | hxr
    · exact deepSorted_build pats (dirPath ++ "/" ++ n) n c
    · exact deepSorted_entries pats dirPath rest x hxr
end

/-- Claim C8: every directory node of the structure tree has its children
sorted ascending by the key (is-file, lowercase name) — subdirectories
first, then files, each group in case-insensitive alphabetical order;
in particular the siblings b.txt, A (a directory) and a.txt appear in
the order A, a.txt, b.txt. -/
theorem c8_structure_order :
    (∀ pats pathStr name fs, DeepSorted (build_structure_tree pats pathStr name fs))
  ∧ ((build_structure_tree [] "r" "/" c8_fs).children.map (fun c => c.attr "name"))
      = [some "A", some "a.txt", some "b.txt"]
  ∧ ((build_structure_tree [] "r" "/" c8_fs).children.map Element.tag)
      = ["directory", "file", "file"] := by
  refine ⟨fun pats pathStr name fs => deepSorted_build pats pathStr name fs, ?_, ?_⟩
  · decide
  · decide

end Codebase2Xml
